import Mathlib

/-!
# go_drive_backup: the backup-target parser and the sequential backup runner

Shallow embedding of `backup/backup.go`.

* A Go `string` is modelled as the list of its characters (`GoString`).  The
  separators `","`, `":"` and the template markers are ASCII, and an ASCII byte
  never occurs inside a multi-byte UTF-8 sequence, so the character-wise
  functions below agree with Go's byte-wise ones on every UTF-8 string.
* A Go `error` value is modelled by its message; `none` is the `nil` error.
* A Go slice is modelled as a list; the `nil` slice is `[]`.
* The standard-library functions the package calls (`strings.Index`,
  `strings.Count`, `strings.Split`, `strings.SplitN`, `strings.ReplaceAll`,
  `strings.Join`) are embedded from the Go standard library, loops as
  structurally recursive functions over a round counter.
-/

set_option linter.dupNamespace false
set_option maxRecDepth 100000

namespace backup

/-- A Go string, as the list of its characters. -/
abbrev GoString := List Char

/-! ## Standard library: package `strings` -/

/-- Go `strings.Index(s, substr)`: the position of the first occurrence of
`substr` in `s`; `none` is Go's `-1`. -/
def Index : GoString → GoString → Option Nat
  | [], substr => if substr = [] then some 0 else none
  | c :: t, substr =>
    if substr.isPrefixOf (c :: t) then some 0
    else (Index t substr).map (· + 1)

/-- The loop of `strings.Count` for a non-empty `substr`:
`for { i := Index(s, substr); if i == -1 { return n }; n++; s = s[i+len(substr):] }`.
The first argument bounds the number of rounds. -/
def countLoop (substr : GoString) : Nat → GoString → Nat
  | 0, _ => 0
  | fuel + 1, s =>
    match Index s substr with
    | none => 0
    | some i => countLoop substr fuel (s.drop (i + substr.length)) + 1

/-- Go `strings.Count(s, substr)`: the number of non-overlapping occurrences of
`substr` in `s`, and the number of characters plus one for the empty `substr`.
Every round of the loop removes at least one character, so `len(s) + 1` rounds
are enough. -/
def Count (s substr : GoString) : Nat :=
  if substr = [] then s.length + 1 else countLoop substr (s.length + 1) s

/-- The loop of `strings.explode`, after which the rest of the string is the
last element. -/
def explodeLoop : Nat → GoString → List GoString
  | 0, s => [s]
  | _ + 1, [] => [[]]
  | k + 1, c :: s => [c] :: explodeLoop k s

/-- Go `strings.explode(s, n)`: `s` cut into single characters, at most `n`
pieces (the last one the unsplit rest); used by `genSplit` for an empty
separator. -/
def explode (s : GoString) (n : Int) : List GoString :=
  let l := s.length
  let m : Nat := if n < 0 ∨ n > l then l else n.toNat
  if m > 0 then explodeLoop (m - 1) s else []

/-- The loop of `strings.genSplit`:
`for i < n { m := Index(s, sep); if m < 0 { break }; a[i] = s[:m+sepSave];
s = s[m+len(sep):]; i++ }; a[i] = s; return a[:i+1]`,
the first argument being the number of rounds left (`n - i`). -/
def splitLoop (sep : GoString) (sepSave : Nat) : Nat → GoString → List GoString
  | 0, s => [s]
  | k + 1, s =>
    match Index s sep with
    | none => [s]
    | some m => s.take (m + sepSave) :: splitLoop sep sepSave k (s.drop (m + sep.length))

/-- Go `strings.genSplit(s, sep, sepSave, n)`. -/
def genSplit (s sep : GoString) (sepSave : Nat) (n : Int) : List GoString :=
  if n = 0 then []
  else if sep = [] then explode s n
  else
    let n₁ : Nat := if n < 0 then Count s sep + 1 else n.toNat
    let n₂ : Nat := if n₁ > s.length + 1 then s.length + 1 else n₁
    splitLoop sep sepSave (n₂ - 1) s

/-- Go `strings.Split(s, sep)`. -/
def Split (s sep : GoString) : List GoString := genSplit s sep 0 (-1)

/-- Go `strings.SplitN(s, sep, n)`. -/
def SplitN (s sep : GoString) (n : Int) : List GoString := genSplit s sep 0 n

/-- Go `strings.Join(elems, sep)`. -/
def Join : List GoString → GoString → GoString
  | [], _ => []
  | [a], _ => a
  | a :: b :: rest, sep => a ++ sep ++ Join (b :: rest) sep

/-- The loop of `strings.Replace`:
`for i := 0; i < n; i++ { j := start; if len(old) == 0 { if i > 0 { j += wid } }
else { j += Index(s[start:], old) }; b.WriteString(s[start:j]); b.WriteString(new);
start = j + len(old) }; b.WriteString(s[start:])`.
The arguments are the rounds left, the round number `i` and `s[start:]`.
`Replace` runs at most `Count(s, old)` rounds, so `Index` always finds `old`. -/
def replaceLoop (old new : GoString) : Nat → Nat → GoString → GoString
  | 0, _, rest => rest
  | k + 1, i, rest =>
    let j : Nat := if old = [] then (if i > 0 then 1 else 0) else (Index rest old).getD 0
    rest.take j ++ new ++ replaceLoop old new k (i + 1) (rest.drop (j + old.length))

/-- Go `strings.Replace(s, old, new, n)`. -/
def Replace (s old new : GoString) (n : Int) : GoString :=
  if old = new ∨ n = 0 then s
  else
    let m := Count s old
    if m = 0 then s
    else
      let n₁ : Nat := if n < 0 ∨ (m : Int) < n then m else n.toNat
      replaceLoop old new n₁ 0 s

/-- Go `strings.ReplaceAll(s, old, new)`. -/
def ReplaceAll (s old new : GoString) : GoString := Replace s old new (-1)

/-! ## `backup.go`: the data model and the target parser -/

/-- The struct `BackupItem` of `backup.go`: one requested transfer. -/
structure BackupItem where
  Source : GoString
  Destination : GoString
deriving DecidableEq, Repr

/-- The loop of `parseBackupItems` over the comma-separated targets; the
second argument is the slice `items` built so far.  A target that `SplitN`
does not cut in two returns `nil` and the error at once. -/
def parseLoop : List GoString → List BackupItem → List BackupItem × Option GoString
  | [], items => (items, none)
  | target :: rest, items =>
    match SplitN target [':'] 2 with
    | [p0, p1] => parseLoop rest (items ++ [{ Source := p0, Destination := p1 }])
    | _ => ([], some ("invalid backup target format: ".toList ++ target))

/-- The function `parseBackupItems` of `backup.go`, returning Go's
pair `([]BackupItem, error)`. -/
def parseBackupItems (targetsString : GoString) : List BackupItem × Option GoString :=
  if targetsString = [] then ([], some "no backup targets specified".toList)
  else
    let targets := Split targetsString [',']
    if targets.length < 1 then ([], some "no backup targets specified".toList)
    else parseLoop targets []

/-! ## `backup.go`: the generated rclone configuration -/

/-- The struct `Credentials` of `backup.go`. -/
structure Credentials where
  ClientID : GoString
  ClientSecret : GoString
deriving DecidableEq, Repr

/-- The raw string literal `baseTemplate` of `getConfig`. -/
def baseTemplate : GoString :=
  ("\n[gdrive]\ntype = drive\nclient_id = #client_id#\nclient_secret = #client_secret#\n" ++
    "scope = drive\ntoken = #token#\nteam_drive = \n").toList

/-- The function `getConfig` of `backup.go`.  The two files it reads through
`getCredentials()` and `getToken()` are outside the program, so the results of
these two calls are its arguments (`Except.error` for a non-nil error). -/
def getConfig (getCredentials : Except GoString Credentials)
    (getToken : Except GoString GoString) : GoString × Option GoString :=
  match getCredentials with
  | .error err => ([], some err)
  | .ok creds =>
    match getToken with
    | .error err => ([], some err)
    | .ok token =>
      (ReplaceAll
        (ReplaceAll (ReplaceAll baseTemplate "#client_id#".toList creds.ClientID)
          "#client_secret#".toList creds.ClientSecret)
        "#token#".toList token, none)

/-! ## The outside world: the log sink and the external processes -/

/-- An `exec.Cmd` as built by `exec.Command(name, arg...)` and its `Env` field. -/
structure Cmd where
  Name : GoString
  Args : List GoString
  Env : List GoString
deriving DecidableEq, Repr

/-- Go `exec.Command(name, arg...)`: the environment is not set yet. -/
def Command (name : GoString) (arg : List GoString) : Cmd :=
  { Name := name, Args := arg, Env := [] }

/-- What `cmd.CombinedOutput()` returns: the captured output and the error
(`none` when the process ran and exited with status 0). -/
structure ExecResult where
  stdout : GoString
  err : Option GoString
deriving DecidableEq, Repr

/-- The severity of a log record. -/
inductive Level where
  | Info
  | Error
deriving DecidableEq, Repr

/-- A structured log record handed to the logger: level, message and the
key/value arguments (values rendered as text). -/
structure Record where
  level : Level
  msg : GoString
  attrs : List (GoString × GoString)
deriving DecidableEq, Repr

/-- What the program does to the outside world. -/
inductive Event where
  | log (r : Record)
  | exec (cmd : Cmd)
deriving DecidableEq, Repr

/-- The outside world: `results k` is what the `k`-th external process started
from now on will return (an arbitrary assignment of outcomes, since the program
does not control them), and `trace` lists what the program has done so far. -/
structure World where
  results : Nat → ExecResult
  trace : List Event

/-- Go `cmd.CombinedOutput()`: the process is run once and its result is the
next one of the world. -/
def CombinedOutput (cmd : Cmd) (w : World) : World × ExecResult :=
  ({ results := fun k => w.results (k + 1), trace := w.trace ++ [Event.exec cmd] },
    w.results 0)

/-- A non-nil `*slog.Logger`, with the attributes bound by `Logger.With`. -/
structure Logger where
  attrs : List (GoString × GoString)
deriving DecidableEq, Repr

/-- A call `logger.Info(msg, args...)` or `logger.Error(msg, args...)` on a
`*slog.Logger` that may be nil: `none` is the nil-pointer panic of the Go
runtime, otherwise the record is handed to the sink. -/
def Logger.log (l : Option Logger) (level : Level) (msg : GoString)
    (args : List (GoString × GoString)) (w : World) : Option World :=
  match l with
  | none => none
  | some lg =>
    some { w with trace := w.trace ++
      [Event.log { level := level, msg := msg, attrs := lg.attrs ++ args }] }

/-- How a Go call ends: it returns a value or the goroutine panics. -/
inductive Outcome (α : Type) where
  | ret (v : α)
  | panic
deriving DecidableEq, Repr

/-! ## `backup.go`: the runner -/

/-- The struct `Backup` of `backup.go`. -/
structure Backup where
  Targets : List BackupItem
  confPath : GoString
  Logger : Option Logger
deriving DecidableEq, Repr

/-- The method `(*Backup).BackupItem` of `backup.go`: one rclone run. -/
def Backup.BackupItem (b : Backup) (item : backup.BackupItem) (w : World) :
    World × Outcome (Option GoString) :=
  match Logger.log b.Logger Level.Info "Backup started".toList
      [("source".toList, item.Source), ("destination".toList, item.Destination)] w with
  | none => (w, Outcome.panic)
  | some w₁ =>
    let cmd := Command "rclone".toList
      ["sync".toList, "--links".toList, item.Source,
        "gdrive".toList ++ ":".toList ++ item.Destination]
    let cmd := { cmd with Env := cmd.Env ++ ["RCLONE_CONFIG=".toList ++ b.confPath] }
    match CombinedOutput cmd w₁ with
    | (w₂, { stdout := stdout, err := some err }) =>
      (w₂, Outcome.ret
        (some ("failed to execute rclone: ".toList ++ err ++ ", ".toList ++ stdout)))
    | (w₂, { stdout := stdout, err := none }) =>
      match Logger.log b.Logger Level.Info "Backup completed successfully".toList
          [("source".toList, item.Source), ("destination".toList, item.Destination),
            ("stdout".toList, stdout)] w₂ with
      | none => (w₂, Outcome.panic)
      | some w₃ => (w₃, Outcome.ret none)

/-- The loop of `(*Backup).Backup` over the remaining targets. -/
def Backup.loop (b : Backup) (isFatal : Bool) :
    List backup.BackupItem → World → World × Outcome (Option GoString)
  | [], w => (w, Outcome.ret none)
  | item :: rest, w =>
    match b.BackupItem item w with
    | (w₁, Outcome.panic) => (w₁, Outcome.panic)
    | (w₁, Outcome.ret none) => Backup.loop b isFatal rest w₁
    | (w₁, Outcome.ret (some err)) =>
      if isFatal then (w₁, Outcome.ret (some err))
      else
        match Logger.log b.Logger Level.Error "Backup failed".toList
            [("err".toList, err)] w₁ with
        | none => (w₁, Outcome.panic)
        | some w₂ => Backup.loop b isFatal rest w₂

/-- The method `(*Backup).Backup` of `backup.go`. -/
def Backup.Backup (b : Backup) (isFatal : Bool) (w : World) :
    World × Outcome (Option GoString) :=
  Backup.loop b isFatal b.Targets w

/-- The external processes started in a trace, in order. -/
def execs : List Event → List Cmd
  | [] => []
  | Event.exec cmd :: rest => cmd :: execs rest
  | Event.log _ :: rest => execs rest

/-- The error-level log records of a trace, in order. -/
def errorLogs : List Event → List Record
  | [] => []
  | Event.log r :: rest => if r.level = Level.Error then r :: errorLogs rest else errorLogs rest
  | Event.exec _ :: rest => errorLogs rest

/-! ## Definitions used to state the properties -/

/-- The segment an item was cut from: source, the first colon, destination. -/
def BackupItem.segment (it : BackupItem) : GoString :=
  it.Source ++ ':' :: it.Destination

/-- The command `BackupItem` hands to `CombinedOutput` for one item. -/
def rcloneCommand (confPath : GoString) (item : BackupItem) : Cmd :=
  { Name := "rclone".toList,
    Args := ["sync".toList, "--links".toList, item.Source, "gdrive:".toList ++ item.Destination],
    Env := ["RCLONE_CONFIG=".toList ++ confPath] }

/-- The error `BackupItem` returns for a failed process. -/
def transferError (r : ExecResult) (err : GoString) : GoString :=
  "failed to execute rclone: ".toList ++ err ++ ", ".toList ++ r.stdout

/-- The world after one process was started. -/
def World.next (w : World) (evs : List Event) : World :=
  { results := fun k => w.results (k + 1), trace := w.trace ++ evs }

/-- The record `BackupItem` logs before it starts the process. -/
def startedRecord (l : Logger) (item : BackupItem) : Record :=
  { level := Level.Info, msg := "Backup started".toList,
    attrs := l.attrs ++
      [("source".toList, item.Source), ("destination".toList, item.Destination)] }

/-- The record `BackupItem` logs after a successful process. -/
def completedRecord (l : Logger) (item : BackupItem) (stdout : GoString) : Record :=
  { level := Level.Info, msg := "Backup completed successfully".toList,
    attrs := l.attrs ++
      [("source".toList, item.Source), ("destination".toList, item.Destination),
        ("stdout".toList, stdout)] }

/-- The error-level record `Backup` logs for a failed item. -/
def failedRecord (l : Logger) (err : GoString) : Record :=
  { level := Level.Error, msg := "Backup failed".toList,
    attrs := l.attrs ++ [("err".toList, err)] }

/-- A runner with three targets, used to instantiate the runner theorems. -/
def demoBackup : Backup :=
  { Targets := [{ Source := "/a".toList, Destination := "x/y".toList },
      { Source := "/b".toList, Destination := "b".toList },
      { Source := "/c".toList, Destination := "c".toList }],
    confPath := "/tmp/rclone.conf".toList,
    Logger := some { attrs := [("system".toList, "backup".toList)] } }

/-- A world in which the second process fails and every other one succeeds. -/
def demoWorld : World :=
  { results := fun k =>
      if k = 1 then { stdout := "boom".toList, err := some "exit status 1".toList }
      else { stdout := [], err := none },
    trace := [] }

/-! ## Lemmas on the `strings` functions for a one-character separator -/

theorem Index_single_none {c : Char} : ∀ {s : GoString}, c ∉ s → Index s [c] = none
  | [], _ => by simp [Index]
  | x :: t, h => by
    have hx : c ≠ x := fun e => h (by simp [e])
    have ht : c ∉ t := fun m => h (List.mem_cons_of_mem _ m)
    simp [Index, hx, Index_single_none ht]

theorem Index_single_append {c : Char} :
    ∀ (p q : GoString), c ∉ p → Index (p ++ c :: q) [c] = some p.length
  | [], q, _ => by simp [Index]
  | x :: t, q, h => by
    have hx : c ≠ x := fun e => h (by simp [e])
    have ht : c ∉ t := fun m => h (List.mem_cons_of_mem _ m)
    simp [Index, hx, Index_single_append t q ht]

/-- A string that contains `c` is cut at its first `c`. -/
theorem exists_first_occurrence {c : Char} :
    ∀ {s : GoString}, c ∈ s → ∃ p q, s = p ++ c :: q ∧ c ∉ p
  | [], h => by simp at h
  | x :: t, h => by
    by_cases hx : c = x
    · exact ⟨[], t, by simp [hx], by simp⟩
    · have ht : c ∈ t := by
        rcases List.mem_cons.1 h with e | m
        · exact absurd e hx
        · exact m
      obtain ⟨p, q, e, hp⟩ := exists_first_occurrence ht
      refine ⟨x :: p, q, by simp [e], ?_⟩
      intro m
      rcases List.mem_cons.1 m with e' | m'
      · exact hx e'
      · exact hp m'

theorem drop_first (c : Char) (p q : GoString) :
    (p ++ c :: q).drop (p.length + 1) = q := by
  induction p with
  | nil => simp
  | cons x t ih => simp [ih]

theorem take_first (c : Char) (p q : GoString) :
    (p ++ c :: q).take p.length = p := by
  simp

theorem countLoop_single (c : Char) :
    ∀ (fuel : Nat) (s : GoString), s.length < fuel → countLoop [c] fuel s = s.count c
  | 0, s, h => by omega
  | fuel + 1, s, h => by
    by_cases hc : c ∈ s
    · obtain ⟨p, q, e, hp⟩ := exists_first_occurrence hc
      subst e
      have hq : q.length < fuel := by
        simp at h
        omega
      simp only [countLoop, Index_single_append p q hp, List.length_singleton, drop_first,
        countLoop_single c fuel q hq]
      simp [List.count_eq_zero_of_not_mem hp]
    · simp [countLoop, Index_single_none hc, List.count_eq_zero_of_not_mem hc]

theorem Count_single (c : Char) (s : GoString) : Count s [c] = s.count c := by
  simp [Count, countLoop_single c (s.length + 1) s (Nat.lt_succ_self _)]

theorem Split_single (c : Char) (s : GoString) :
    Split s [c] = splitLoop [c] 0 (s.count c) s := by
  have h : s.count c ≤ s.length := List.count_le_length c s
  have h' : ¬ (s.count c + 1 > s.length + 1) := by omega
  simp [Split, genSplit, Count_single, h']

theorem splitLoop_ne_nil (sep : GoString) (k : Nat) (s : GoString) :
    splitLoop sep 0 k s ≠ [] := by
  cases k with
  | zero => simp [splitLoop]
  | succ k =>
    unfold splitLoop
    split <;> simp

theorem Join_cons (a : GoString) {l : List GoString} (sep : GoString) (h : l ≠ []) :
    Join (a :: l) sep = a ++ sep ++ Join l sep := by
  cases l with
  | nil => exact absurd rfl h
  | cons b rest => rfl

/-- Joining the pieces gives the string back, whatever the number of rounds. -/
theorem Join_splitLoop (c : Char) :
    ∀ (k : Nat) (s : GoString), Join (splitLoop [c] 0 k s) [c] = s
  | 0, s => by simp [splitLoop, Join]
  | k + 1, s => by
    by_cases hc : c ∈ s
    · obtain ⟨p, q, e, hp⟩ := exists_first_occurrence hc
      subst e
      simp only [splitLoop, Index_single_append p q hp, List.length_singleton, drop_first,
        Nat.add_zero, take_first]
      rw [Join_cons _ _ (splitLoop_ne_nil _ _ _), Join_splitLoop c k q]
      simp
    · simp [splitLoop, Index_single_none hc, Join]

theorem length_splitLoop (c : Char) :
    ∀ (k : Nat) (s : GoString), s.count c ≤ k → (splitLoop [c] 0 k s).length = s.count c + 1
  | 0, s, h => by
    have : s.count c = 0 := by omega
    simp [splitLoop, this]
  | k + 1, s, h => by
    by_cases hc : c ∈ s
    · obtain ⟨p, q, e, hp⟩ := exists_first_occurrence hc
      subst e
      have hcount : (p ++ c :: q).count c = q.count c + 1 := by
        simp [List.count_eq_zero_of_not_mem hp]
      have hq : q.count c ≤ k := by omega
      simp only [splitLoop, Index_single_append p q hp, List.length_singleton, drop_first]
      simp only [List.length_cons, length_splitLoop c k q hq, hcount]
    · simp [splitLoop, Index_single_none hc, List.count_eq_zero_of_not_mem hc]

theorem not_mem_splitLoop (c : Char) :
    ∀ (k : Nat) (s : GoString), s.count c ≤ k → ∀ seg ∈ splitLoop [c] 0 k s, c ∉ seg
  | 0, s, h => by
    have h0 : s.count c = 0 := by omega
    intro seg hseg
    simp [splitLoop] at hseg
    subst hseg
    exact List.count_eq_zero.1 h0
  | k + 1, s, h => by
    by_cases hc : c ∈ s
    · obtain ⟨p, q, e, hp⟩ := exists_first_occurrence hc
      subst e
      have hcount : (p ++ c :: q).count c = q.count c + 1 := by
        simp [List.count_eq_zero_of_not_mem hp]
      have hq : q.count c ≤ k := by omega
      intro seg hseg
      simp only [splitLoop, Index_single_append p q hp, List.length_singleton, drop_first,
        Nat.add_zero, take_first, List.mem_cons] at hseg
      rcases hseg with e | m
      · subst e
        exact hp
      · exact not_mem_splitLoop c k q hq seg m
    · intro seg hseg
      simp [splitLoop, Index_single_none hc] at hseg
      subst hseg
      exact hc

/-- Splitting a joined list of separator-free pieces gives the pieces back. -/
theorem splitLoop_Join (c : Char) :
    ∀ (segs : List GoString) (k : Nat), segs ≠ [] → (∀ seg ∈ segs, c ∉ seg) →
      segs.length ≤ k + 1 → splitLoop [c] 0 k (Join segs [c]) = segs
  | [], _, h, _, _ => absurd rfl h
  | [a], k, _, hs, _ => by
    have ha : c ∉ a := hs a (by simp)
    cases k with
    | zero => simp [splitLoop, Join]
    | succ k => simp [splitLoop, Join, Index_single_none ha]
  | a :: b :: rest, k, _, hs, hk => by
    have ha : c ∉ a := hs a (by simp)
    have hrest : ∀ seg ∈ b :: rest, c ∉ seg := fun seg m => hs seg (List.mem_cons_of_mem _ m)
    cases k with
    | zero => simp at hk
    | succ k =>
      have hk' : (b :: rest).length ≤ k + 1 := by
        simp at hk ⊢
        omega
      have ih := splitLoop_Join c (b :: rest) k (by simp) hrest hk'
      have e : Join (a :: b :: rest) [c] = a ++ c :: Join (b :: rest) [c] := by
        simp [Join]
      rw [e]
      simp only [splitLoop, Index_single_append a _ ha, List.length_singleton, drop_first,
        Nat.add_zero, take_first, ih]

theorem count_Join (c : Char) :
    ∀ (segs : List GoString), segs ≠ [] → (∀ seg ∈ segs, c ∉ seg) →
      (Join segs [c]).count c + 1 = segs.length
  | [], h, _ => absurd rfl h
  | [a], _, hs => by
    have ha : c ∉ a := hs a (by simp)
    simp [Join, List.count_eq_zero_of_not_mem ha]
  | a :: b :: rest, _, hs => by
    have ha : c ∉ a := hs a (by simp)
    have hrest : ∀ seg ∈ b :: rest, c ∉ seg := fun seg m => hs seg (List.mem_cons_of_mem _ m)
    have ih := count_Join c (b :: rest) (by simp) hrest
    have e : Join (a :: b :: rest) [c] = a ++ c :: Join (b :: rest) [c] := by
      simp [Join]
    rw [e]
    simp [List.count_eq_zero_of_not_mem ha] at ih ⊢
    omega

theorem Split_Join (c : Char) (segs : List GoString) (h : segs ≠ [])
    (hs : ∀ seg ∈ segs, c ∉ seg) : Split (Join segs [c]) [c] = segs := by
  rw [Split_single]
  apply splitLoop_Join c segs _ h hs
  have := count_Join c segs h hs
  omega

theorem Join_Split (c : Char) (s : GoString) : Join (Split s [c]) [c] = s := by
  rw [Split_single]
  exact Join_splitLoop c _ s

theorem length_Split (c : Char) (s : GoString) : (Split s [c]).length = s.count c + 1 := by
  rw [Split_single]
  exact length_splitLoop c _ s (Nat.le_refl _)

theorem not_mem_Split (c : Char) (s : GoString) : ∀ seg ∈ Split s [c], c ∉ seg := by
  rw [Split_single]
  exact not_mem_splitLoop c _ s (Nat.le_refl _)

theorem SplitN_two_none {c : Char} {t : GoString} (h : c ∉ t) : SplitN t [c] 2 = [t] := by
  unfold SplitN genSplit
  simp only [show ((2 : Int) = 0) = False from by simp, if_false,
    show ([c] = ([] : GoString)) = False from by simp,
    show ((2 : Int) < 0) = False from by simp]
  generalize (if (2 : Int).toNat > t.length + 1 then t.length + 1 else (2 : Int).toNat) - 1 = k
  cases k with
  | zero => simp [splitLoop]
  | succ k => simp [splitLoop, Index_single_none h]

theorem SplitN_two_some {c : Char} (p q : GoString) (h : c ∉ p) :
    SplitN (p ++ c :: q) [c] 2 = [p, q] := by
  unfold SplitN genSplit
  have hk : (if (2 : Int).toNat > (p ++ c :: q).length + 1 then (p ++ c :: q).length + 1
      else (2 : Int).toNat) - 1 = 1 := by
    have : (2 : Int).toNat = 2 := rfl
    rw [this]
    simp
    omega
  simp only [show ((2 : Int) = 0) = False from by simp, if_false,
    show ([c] = ([] : GoString)) = False from by simp,
    show ((2 : Int) < 0) = False from by simp]
  rw [hk]
  simp only [splitLoop, Index_single_append p q h, List.length_singleton, drop_first,
    Nat.add_zero, take_first]

/-! ## Lemmas on the loop of `parseBackupItems` -/

theorem parseLoop_cons_some (p q : GoString) (h : ':' ∉ p) (rest : List GoString)
    (acc : List BackupItem) :
    parseLoop ((p ++ ':' :: q) :: rest) acc =
      parseLoop rest (acc ++ [{ Source := p, Destination := q }]) := by
  simp only [parseLoop, SplitN_two_some p q h]

theorem parseLoop_cons_none {t : GoString} (h : ':' ∉ t) (rest : List GoString)
    (acc : List BackupItem) :
    parseLoop (t :: rest) acc =
      ([], some ("invalid backup target format: ".toList ++ t)) := by
  simp only [parseLoop, SplitN_two_none h]

theorem parseLoop_ok :
    ∀ (its acc : List BackupItem), (∀ it ∈ its, ':' ∉ it.Source) →
      parseLoop (its.map BackupItem.segment) acc = (acc ++ its, none)
  | [], acc, _ => by simp [parseLoop]
  | it :: rest, acc, h => by
    have hit : ':' ∉ it.Source := h it (by simp)
    have hrest : ∀ x ∈ rest, ':' ∉ x.Source := fun x m => h x (List.mem_cons_of_mem _ m)
    simp only [List.map_cons, BackupItem.segment, parseLoop_cons_some _ _ hit]
    rw [parseLoop_ok rest _ hrest]
    simp

theorem parseLoop_bad :
    ∀ (pre : List GoString) (bad : GoString) (post : List GoString) (acc : List BackupItem),
      (∀ seg ∈ pre, ':' ∈ seg) → ':' ∉ bad →
      parseLoop (pre ++ bad :: post) acc =
        ([], some ("invalid backup target format: ".toList ++ bad))
  | [], bad, post, acc, _, hbad => by simpa using parseLoop_cons_none hbad post acc
  | t :: pre, bad, post, acc, hpre, hbad => by
    obtain ⟨p, q, e, hp⟩ := exists_first_occurrence (hpre t (by simp))
    subst e
    have hpre' : ∀ seg ∈ pre, ':' ∈ seg := fun seg m => hpre seg (List.mem_cons_of_mem _ m)
    rw [List.cons_append, parseLoop_cons_some p q hp]
    exact parseLoop_bad pre bad post _ hpre' hbad

/-- A successful run of the loop: the targets are the segments of the items
appended, and no source contains a colon. -/
theorem parseLoop_inv :
    ∀ (segs : List GoString) (acc items : List BackupItem),
      parseLoop segs acc = (items, none) →
      ∃ its, items = acc ++ its ∧ segs = its.map BackupItem.segment ∧
        ∀ it ∈ its, ':' ∉ it.Source
  | [], acc, items, h => by
    refine ⟨[], ?_, rfl, by simp⟩
    simp [parseLoop] at h
    simp [h]
  | t :: rest, acc, items, h => by
    by_cases hc : ':' ∈ t
    · obtain ⟨p, q, e, hp⟩ := exists_first_occurrence hc
      subst e
      rw [parseLoop_cons_some p q hp] at h
      obtain ⟨its, e1, e2, e3⟩ := parseLoop_inv rest _ items h
      refine ⟨{ Source := p, Destination := q } :: its, by simp [e1], by
        simp [e2, BackupItem.segment], ?_⟩
      intro it m
      rcases List.mem_cons.1 m with e | m'
      · subst e
        exact hp
      · exact e3 it m'
    · rw [parseLoop_cons_none hc] at h
      simp at h

/-- A failing run of the loop returns no items and names a target. -/
theorem parseLoop_err :
    ∀ (segs : List GoString) (acc items : List BackupItem) (err : GoString),
      parseLoop segs acc = (items, some err) →
      items = [] ∧ ∃ t, err = "invalid backup target format: ".toList ++ t
  | [], acc, items, err, h => by simp [parseLoop] at h
  | t :: rest, acc, items, err, h => by
    by_cases hc : ':' ∈ t
    · obtain ⟨p, q, e, hp⟩ := exists_first_occurrence hc
      subst e
      rw [parseLoop_cons_some p q hp] at h
      exact parseLoop_err rest _ items err h
    · rw [parseLoop_cons_none hc] at h
      simp only [Prod.mk.injEq, Option.some.injEq] at h
      exact ⟨h.1.symm, t, h.2.symm⟩

theorem parseBackupItems_of_ne_nil {raw : GoString} (h : raw ≠ []) :
    parseBackupItems raw = parseLoop (Split raw [',']) [] := by
  have hl : ¬ ((Split raw [',']).length < 1) := by
    rw [length_Split]
    omega
  simp [parseBackupItems, h, hl]

/-- A successful parse, inverted. -/
theorem parseBackupItems_inv {raw : GoString} {items : List BackupItem}
    (h : parseBackupItems raw = (items, none)) :
    raw ≠ [] ∧ Split raw [','] = items.map BackupItem.segment ∧
      ∀ it ∈ items, ':' ∉ it.Source := by
  have hraw : raw ≠ [] := by
    intro e
    subst e
    simp [parseBackupItems] at h
  rw [parseBackupItems_of_ne_nil hraw] at h
  obtain ⟨its, e1, e2, e3⟩ := parseLoop_inv _ _ _ h
  simp only [List.nil_append] at e1
  subst e1
  exact ⟨hraw, e2, e3⟩

theorem segment_ne_nil (it : BackupItem) : it.segment ≠ [] := by
  simp [BackupItem.segment]

theorem Index_segment {it : BackupItem} (h : ':' ∉ it.Source) :
    Index it.segment [':'] = some it.Source.length :=
  Index_single_append it.Source it.Destination h

/-! ## The claims on `parseBackupItems` -/

/-- C1: for a non-empty list of pairs `(s, d)` in which no `s` contains `,` or
`:` and no `d` contains `,` (a `d` may contain `:`), `parseBackupItems` applied
to `s1:d1,s2:d2,...,sn:dn` returns no error and exactly the items
`{Source: si, Destination: di}` in input order. -/
theorem parseBackupItems_wellformed (ps : List (GoString × GoString)) (hn : ps ≠ [])
    (hs : ∀ p ∈ ps, ',' ∉ p.1 ∧ ':' ∉ p.1) (hd : ∀ p ∈ ps, ',' ∉ p.2) :
    parseBackupItems (Join (ps.map fun p => p.1 ++ [':'] ++ p.2) [',']) =
      (ps.map fun p => { Source := p.1, Destination := p.2 }, none) := by
  have hsegs : (ps.map fun p => p.1 ++ [':'] ++ p.2) =
      (ps.map fun p => ({ Source := p.1, Destination := p.2 } : BackupItem)).map
        BackupItem.segment := by
    simp [List.map_map, BackupItem.segment, Function.comp_def]
  have hne : (ps.map fun p => p.1 ++ [':'] ++ p.2) ≠ [] := by simpa using hn
  have hcomma : ∀ seg ∈ (ps.map fun p => p.1 ++ [':'] ++ p.2), ',' ∉ seg := by
    intro seg hseg
    obtain ⟨p, hp, e⟩ := List.mem_map.1 hseg
    subst e
    have h1 := (hs p hp).1
    have h2 := hd p hp
    simp [h1, h2]
  have hsplit := Split_Join ',' _ hne hcomma
  have hraw : Join (ps.map fun p => p.1 ++ [':'] ++ p.2) [','] ≠ [] := by
    intro e
    rw [e] at hsplit
    have h0 : Split [] [','] = [[]] := by decide
    rw [h0] at hsplit
    cases ps with
    | nil => exact hn rfl
    | cons p rest =>
      simp only [List.map_cons, List.cons.injEq] at hsplit
      have := hsplit.1
      simp at this
  rw [parseBackupItems_of_ne_nil hraw, hsplit, hsegs, parseLoop_ok]
  · simp
  · intro it hit
    obtain ⟨p, hp, e⟩ := List.mem_map.1 hit
    subst e
    exact (hs p hp).2

/-- C1, at the inputs `path1:dest1,path2:dest2` and `a:b:c`. -/
theorem parseBackupItems_wellformed_witness :
    parseBackupItems "path1:dest1,path2:dest2".toList =
        ([{ Source := "path1".toList, Destination := "dest1".toList },
          { Source := "path2".toList, Destination := "dest2".toList }], none) ∧
      parseBackupItems "a:b:c".toList =
        ([{ Source := "a".toList, Destination := "b:c".toList }], none) :=
  ⟨parseBackupItems_wellformed
      [("path1".toList, "dest1".toList), ("path2".toList, "dest2".toList)]
      (by decide) (by decide) (by decide),
    parseBackupItems_wellformed [("a".toList, "b:c".toList)]
      (by decide) (by decide) (by decide)⟩

/-- C2, as stated, fails at the empty string: its only comma-separated segment
is the empty one, which contains no colon, yet the error is the one of the
empty-input guard and names no segment. -/
theorem parseBackupItems_empty_names_no_segment :
    Split [] [','] = [[]] ∧ ':' ∉ ([] : GoString) ∧
      parseBackupItems [] = ([], some "no backup targets specified".toList) ∧
      parseBackupItems [] ≠ ([], some ("invalid backup target format: ".toList ++ [])) := by
  decide

/-- C2 (amended): for every non-empty raw string `seg1,...,segn` in which some
segment contains no colon, `parseBackupItems` returns the nil list and the
error `invalid backup target format: ` followed by the first such segment. -/
theorem parseBackupItems_malformed (pre post : List GoString) (bad : GoString)
    (hraw : Join (pre ++ bad :: post) [','] ≠ [])
    (hcomma : ∀ seg ∈ pre ++ bad :: post, ',' ∉ seg)
    (hpre : ∀ seg ∈ pre, ':' ∈ seg) (hbad : ':' ∉ bad) :
    parseBackupItems (Join (pre ++ bad :: post) [',']) =
      ([], some ("invalid backup target format: ".toList ++ bad)) := by
  rw [parseBackupItems_of_ne_nil hraw, Split_Join ',' _ (by simp) hcomma]
  exact parseLoop_bad pre bad post [] hpre hbad

/-- C2 (amended), at the inputs `a:b,bad,c:d` and `invalid_format`. -/
theorem parseBackupItems_malformed_witness :
    parseBackupItems "a:b,bad,c:d".toList =
        ([], some "invalid backup target format: bad".toList) ∧
      parseBackupItems "invalid_format".toList =
        ([], some "invalid backup target format: invalid_format".toList) :=
  ⟨parseBackupItems_malformed ["a:b".toList] ["c:d".toList] "bad".toList
      (by decide) (by decide) (by decide) (by decide),
    parseBackupItems_malformed [] [] "invalid_format".toList
      (by decide) (by decide) (by decide) (by decide)⟩

/-- C5, as stated, fails at the raw string `:`: the parse succeeds with one
item whose source and destination are both empty. -/
theorem parseBackupItems_colon_only :
    parseBackupItems [':'] = ([{ Source := [], Destination := [] }], none) ∧
      ¬ ∀ it ∈ (parseBackupItems [':']).1, it.Source ≠ [] ∧ it.Destination ≠ [] := by
  decide

/-- C5 (amended): when `parseBackupItems` succeeds, every item has a non-empty
source and a non-empty destination exactly when in no comma-separated segment
of the raw string the first colon is the first or the last character. -/
theorem parseBackupItems_nonempty_fields (raw : GoString) (items : List BackupItem)
    (h : parseBackupItems raw = (items, none)) :
    (∀ it ∈ items, it.Source ≠ [] ∧ it.Destination ≠ []) ↔
      ∀ seg ∈ Split raw [','],
        Index seg [':'] ≠ some 0 ∧ Index seg [':'] ≠ some (seg.length - 1) := by
  obtain ⟨_, e2, e3⟩ := parseBackupItems_inv h
  rw [e2]
  simp only [List.forall_mem_map]
  refine forall_congr' fun it => imp_congr_right fun hit => ?_
  rw [Index_segment (e3 it hit)]
  have hlen : it.segment.length = it.Source.length + (it.Destination.length + 1) := by
    simp [BackupItem.segment]
  rw [hlen]
  simp only [ne_eq, Option.some.injEq, ← List.length_eq_zero]
  constructor
  · rintro ⟨h1, h2⟩
    constructor <;> omega
  · rintro ⟨h1, h2⟩
    constructor <;> omega

/-- C5 (amended), at the input `path1:dest1,path2:dest2`. -/
theorem parseBackupItems_nonempty_fields_witness :
    (∀ it ∈ [({ Source := "path1".toList, Destination := "dest1".toList } : BackupItem),
        { Source := "path2".toList, Destination := "dest2".toList }],
        it.Source ≠ [] ∧ it.Destination ≠ []) ↔
      ∀ seg ∈ Split "path1:dest1,path2:dest2".toList [','],
        Index seg [':'] ≠ some 0 ∧ Index seg [':'] ≠ some (seg.length - 1) :=
  parseBackupItems_nonempty_fields "path1:dest1,path2:dest2".toList _ (by decide)

/-- C7: `parseBackupItems` of the empty string returns no items and the error
`no backup targets specified`, and the empty string is the only input for which
that error is returned. -/
theorem parseBackupItems_no_targets (raw : GoString) :
    parseBackupItems [] = ([], some "no backup targets specified".toList) ∧
      ((parseBackupItems raw).2 = some "no backup targets specified".toList ↔ raw = []) := by
  refine ⟨by decide, ?_, ?_⟩
  · intro h
    by_contra hraw
    rw [parseBackupItems_of_ne_nil hraw] at h
    obtain ⟨_, t, e⟩ := parseLoop_err (Split raw [',']) [] _ _ (Prod.ext rfl h)
    have e' : 'n' :: "o backup targets specified".toList =
        'i' :: ("nvalid backup target format: ".toList ++ t) := e
    injection e' with h1 _
    exact absurd h1 (by decide)
  · intro e
    subst e
    decide

/-- C8: for every raw string, `parseBackupItems` returns an error, or it
returns a non-empty list whose length is the number of commas of the raw
string plus one. -/
theorem parseBackupItems_length (raw : GoString) :
    (parseBackupItems raw).2 ≠ none ∨
      ((parseBackupItems raw).1 ≠ [] ∧
        (parseBackupItems raw).1.length = raw.count ',' + 1) := by
  cases herr : (parseBackupItems raw).2 with
  | some err => exact Or.inl (by simp)
  | none =>
    right
    have h : parseBackupItems raw = ((parseBackupItems raw).1, none) := Prod.ext rfl herr
    obtain ⟨_, e2, _⟩ := parseBackupItems_inv h
    have hl : (parseBackupItems raw).1.length = raw.count ',' + 1 := by
      rw [← length_Split, e2, List.length_map]
    refine ⟨?_, hl⟩
    intro e
    rw [e] at hl
    simp at hl

/-- C10: when `parseBackupItems` succeeds, joining `Source:Destination` of the
items with commas gives the raw string back, no source contains a colon or a
comma, and no destination contains a comma. -/
theorem parseBackupItems_roundtrip (raw : GoString) (items : List BackupItem)
    (h : parseBackupItems raw = (items, none)) :
    Join (items.map fun it => it.Source ++ [':'] ++ it.Destination) [','] = raw ∧
      ∀ it ∈ items, ':' ∉ it.Source ∧ ',' ∉ it.Source ∧ ',' ∉ it.Destination := by
  obtain ⟨_, e2, e3⟩ := parseBackupItems_inv h
  have hmap : (items.map fun it => it.Source ++ [':'] ++ it.Destination) =
      items.map BackupItem.segment := by
    simp [BackupItem.segment]
  refine ⟨?_, ?_⟩
  · rw [hmap, ← e2, Join_Split]
  · intro it hit
    have hseg : it.segment ∈ Split raw [','] := by
      rw [e2]
      exact List.mem_map_of_mem _ hit
    have hc := not_mem_Split ',' raw _ hseg
    simp only [BackupItem.segment, List.mem_append, List.mem_cons, not_or] at hc
    exact ⟨e3 it hit, hc.1, hc.2.2⟩

/-- C10, at the input `path1:dest1,path2:dest2`. -/
theorem parseBackupItems_roundtrip_witness :
    Join (([({ Source := "path1".toList, Destination := "dest1".toList } : BackupItem),
        { Source := "path2".toList, Destination := "dest2".toList }]).map
        fun it => it.Source ++ [':'] ++ it.Destination) [','] =
        "path1:dest1,path2:dest2".toList ∧
      ∀ it ∈ [({ Source := "path1".toList, Destination := "dest1".toList } : BackupItem),
        { Source := "path2".toList, Destination := "dest2".toList }],
        ':' ∉ it.Source ∧ ',' ∉ it.Source ∧ ',' ∉ it.Destination :=
  parseBackupItems_roundtrip "path1:dest1,path2:dest2".toList _ (by decide)

/-! ## Lemmas on the runner -/

theorem execs_append : ∀ (a b : List Event), execs (a ++ b) = execs a ++ execs b
  | [], b => rfl
  | Event.exec cmd :: a, b => by simp [execs, execs_append a b]
  | Event.log _ :: a, b => by simp [execs, execs_append a b]

theorem errorLogs_append :
    ∀ (a b : List Event), errorLogs (a ++ b) = errorLogs a ++ errorLogs b
  | [], b => rfl
  | Event.exec cmd :: a, b => by simp [errorLogs, errorLogs_append a b]
  | Event.log r :: a, b => by
    by_cases h : r.level = Level.Error <;> simp [errorLogs, errorLogs_append a b, h]

theorem BackupItem_fail (b : Backup) (l : Logger) (hl : b.Logger = some l)
    (item : BackupItem) (w : World) (err : GoString) (h : (w.results 0).err = some err) :
    b.BackupItem item w =
      (w.next [Event.log (startedRecord l item), Event.exec (rcloneCommand b.confPath item)],
        Outcome.ret (some (transferError (w.results 0) err))) := by
  rcases hr : w.results 0 with ⟨out, e⟩
  rw [hr] at h
  simp only at h
  subst h
  simp [Backup.BackupItem, hl, Logger.log, CombinedOutput, Command, hr, rcloneCommand,
    transferError, World.next, startedRecord]

theorem BackupItem_ok (b : Backup) (l : Logger) (hl : b.Logger = some l)
    (item : BackupItem) (w : World) (h : (w.results 0).err = none) :
    b.BackupItem item w =
      (w.next [Event.log (startedRecord l item), Event.exec (rcloneCommand b.confPath item),
        Event.log (completedRecord l item (w.results 0).stdout)],
        Outcome.ret none) := by
  rcases hr : w.results 0 with ⟨out, e⟩
  rw [hr] at h
  simp only at h
  subst h
  simp [Backup.BackupItem, hl, Logger.log, CombinedOutput, Command, hr, rcloneCommand,
    World.next, startedRecord, completedRecord]

theorem execs_next_fail (w : World) (r : Record) (cmd : Cmd) :
    execs (w.next [Event.log r, Event.exec cmd]).trace = execs w.trace ++ [cmd] := by
  simp [World.next, execs_append, execs]

theorem execs_next_ok (w : World) (r r' : Record) (cmd : Cmd) :
    execs (w.next [Event.log r, Event.exec cmd, Event.log r']).trace =
      execs w.trace ++ [cmd] := by
  simp [World.next, execs_append, execs]

/-- Fail-fast loop, some process fails: the loop stops at the first one. -/
theorem loop_failfast_stop (b : Backup) (l : Logger) (hl : b.Logger = some l) :
    ∀ (ts : List BackupItem) (w : World) (k : Nat) (err : GoString),
      k < ts.length → (w.results k).err = some err → (∀ j < k, (w.results j).err = none) →
      (b.loop true ts w).2 = Outcome.ret (some (transferError (w.results k) err)) ∧
        execs (b.loop true ts w).1.trace =
          execs w.trace ++ (ts.take (k + 1)).map (rcloneCommand b.confPath)
  | [], w, k, err, hk, _, _ => by simp at hk
  | item :: rest, w, 0, err, _, he, _ => by
    simp [Backup.loop, BackupItem_fail b l hl item w err he, execs_next_fail]
  | item :: rest, w, k + 1, err, hk, he, hprev => by
    have h0 : (w.results 0).err = none := hprev 0 (Nat.succ_pos k)
    have hk' : k < rest.length := by
      simp at hk
      omega
    simp only [Backup.loop, BackupItem_ok b l hl item w h0]
    obtain ⟨h1, h2⟩ := loop_failfast_stop b l hl rest (w.next _) k err hk' he
      (fun j hj => hprev (j + 1) (Nat.succ_lt_succ hj))
    refine ⟨h1, ?_⟩
    rw [h2, execs_next_ok]
    simp

/-- No process fails: the loop runs every item and returns nil. -/
theorem loop_all_ok (b : Backup) (l : Logger) (hl : b.Logger = some l) (isFatal : Bool) :
    ∀ (ts : List BackupItem) (w : World),
      (∀ k < ts.length, (w.results k).err = none) →
      (b.loop isFatal ts w).2 = Outcome.ret none ∧
        execs (b.loop isFatal ts w).1.trace =
          execs w.trace ++ ts.map (rcloneCommand b.confPath)
  | [], w, _ => by simp [Backup.loop]
  | item :: rest, w, h => by
    have h0 : (w.results 0).err = none := h 0 (by simp)
    simp only [Backup.loop, BackupItem_ok b l hl item w h0]
    obtain ⟨h1, h2⟩ := loop_all_ok b l hl isFatal rest (w.next _)
      (fun k hk => h (k + 1) (by simpa using hk))
    refine ⟨h1, ?_⟩
    rw [h2, execs_next_ok]
    simp

theorem loop_cons_ok (b : Backup) (l : Logger) (hl : b.Logger = some l) (isFatal : Bool)
    (item : BackupItem) (rest : List BackupItem) (w : World)
    (h : (w.results 0).err = none) :
    b.loop isFatal (item :: rest) w =
      b.loop isFatal rest
        (w.next [Event.log (startedRecord l item), Event.exec (rcloneCommand b.confPath item),
          Event.log (completedRecord l item (w.results 0).stdout)]) := by
  simp only [Backup.loop, BackupItem_ok b l hl item w h]

theorem loop_cons_fail (b : Backup) (l : Logger) (hl : b.Logger = some l)
    (item : BackupItem) (rest : List BackupItem) (w : World) (err : GoString)
    (h : (w.results 0).err = some err) :
    b.loop false (item :: rest) w =
      b.loop false rest
        (w.next [Event.log (startedRecord l item), Event.exec (rcloneCommand b.confPath item),
          Event.log (failedRecord l (transferError (w.results 0) err))]) := by
  simp [Backup.loop, BackupItem_fail b l hl item w err h, hl, Logger.log, World.next,
    failedRecord]

/-- Best-effort loop: every item is run, every failure is logged once. -/
theorem loop_besteffort (b : Backup) (l : Logger) (hl : b.Logger = some l) :
    ∀ (ts : List BackupItem) (w : World),
      (b.loop false ts w).2 = Outcome.ret none ∧
        execs (b.loop false ts w).1.trace =
          execs w.trace ++ ts.map (rcloneCommand b.confPath) ∧
        errorLogs (b.loop false ts w).1.trace =
          errorLogs w.trace ++ (List.range ts.length).filterMap fun k =>
            (w.results k).err.map fun err =>
              failedRecord l (transferError (w.results k) err)
  | [], w => by simp [Backup.loop]
  | item :: rest, w => by
    cases h0 : (w.results 0).err with
    | none =>
      rw [loop_cons_ok b l hl false item rest w h0]
      obtain ⟨h1, h2, h3⟩ := loop_besteffort b l hl rest (w.next
        [Event.log (startedRecord l item), Event.exec (rcloneCommand b.confPath item),
          Event.log (completedRecord l item (w.results 0).stdout)])
      refine ⟨h1, ?_, ?_⟩
      · rw [h2, execs_next_ok]
        simp
      · rw [h3]
        simp [World.next, errorLogs_append, errorLogs, startedRecord, completedRecord,
          List.range_succ_eq_map, List.filterMap_map, h0, Function.comp_def]
    | some err =>
      rw [loop_cons_fail b l hl item rest w err h0]
      obtain ⟨h1, h2, h3⟩ := loop_besteffort b l hl rest (w.next
        [Event.log (startedRecord l item), Event.exec (rcloneCommand b.confPath item),
          Event.log (failedRecord l (transferError (w.results 0) err))])
      refine ⟨h1, ?_, ?_⟩
      · rw [h2, execs_next_ok]
        simp
      · rw [h3]
        simp [World.next, errorLogs_append, errorLogs, startedRecord, failedRecord,
          List.range_succ_eq_map, List.filterMap_map, h0, Function.comp_def]

/-- A runner without a logger panics on its first log call, before any process
is started. -/
theorem BackupItem_nil_logger (b : Backup) (hl : b.Logger = none) (item : BackupItem)
    (w : World) : b.BackupItem item w = (w, Outcome.panic) := by
  simp [Backup.BackupItem, hl, Logger.log]

/-! ## The claims on the runner -/

/-- C3: `Backup` with `isFatal = true`, on a runner that has a logger.  The
`k`-th process the runner starts gets the `k`-th outcome of the world.  If the
outcome of item `k` is a failure and the outcomes of all items before it are
successes, `Backup` returns the error of item `k` and the processes started are
those of the items `0..k`, in list order, each once, and none of a later item.
If no item fails, `Backup` returns nil and the processes started are those of
all the items in list order. -/
theorem Backup_failfast (b : Backup) (l : Logger) (hl : b.Logger = some l) (w : World) :
    (∀ k err, k < b.Targets.length → (w.results k).err = some err →
        (∀ j < k, (w.results j).err = none) →
        (b.Backup true w).2 = Outcome.ret (some (transferError (w.results k) err)) ∧
          execs (b.Backup true w).1.trace =
            execs w.trace ++ (b.Targets.take (k + 1)).map (rcloneCommand b.confPath)) ∧
      ((∀ k < b.Targets.length, (w.results k).err = none) →
        (b.Backup true w).2 = Outcome.ret none ∧
          execs (b.Backup true w).1.trace =
            execs w.trace ++ b.Targets.map (rcloneCommand b.confPath)) :=
  ⟨fun k err hk he hprev => loop_failfast_stop b l hl b.Targets w k err hk he hprev,
    fun h => loop_all_ok b l hl true b.Targets w h⟩

/-- C3, at three targets of which the second fails: the error is the one of the
second target and the third target is never run. -/
theorem Backup_failfast_witness :
    (demoBackup.Backup true demoWorld).2 =
        Outcome.ret (some "failed to execute rclone: exit status 1, boom".toList) ∧
      execs (demoBackup.Backup true demoWorld).1.trace =
        [rcloneCommand "/tmp/rclone.conf".toList
            { Source := "/a".toList, Destination := "x/y".toList },
          rcloneCommand "/tmp/rclone.conf".toList
            { Source := "/b".toList, Destination := "b".toList }] :=
  (Backup_failfast demoBackup { attrs := [("system".toList, "backup".toList)] } rfl
    demoWorld).1 1 "exit status 1".toList (by decide) rfl (by decide)

/-- C4: `Backup` with `isFatal = false`, on a runner that has a logger, returns
nil whatever the outcomes; the processes started are those of all the items, in
list order, each once; and the error-level log records are, in order, one
`Backup failed` record carrying the error of the item for every item whose
process failed. -/
theorem Backup_besteffort (b : Backup) (l : Logger) (hl : b.Logger = some l) (w : World) :
    (b.Backup false w).2 = Outcome.ret none ∧
      execs (b.Backup false w).1.trace =
        execs w.trace ++ b.Targets.map (rcloneCommand b.confPath) ∧
      errorLogs (b.Backup false w).1.trace =
        errorLogs w.trace ++ (List.range b.Targets.length).filterMap fun k =>
          (w.results k).err.map fun err =>
            failedRecord l (transferError (w.results k) err) :=
  loop_besteffort b l hl b.Targets w

/-- C4, at three targets of which the second fails: nil is returned, the three
processes are run and one error record is logged. -/
theorem Backup_besteffort_witness :
    (demoBackup.Backup false demoWorld).2 = Outcome.ret none ∧
      execs (demoBackup.Backup false demoWorld).1.trace =
        [rcloneCommand "/tmp/rclone.conf".toList
            { Source := "/a".toList, Destination := "x/y".toList },
          rcloneCommand "/tmp/rclone.conf".toList
            { Source := "/b".toList, Destination := "b".toList },
          rcloneCommand "/tmp/rclone.conf".toList
            { Source := "/c".toList, Destination := "c".toList }] ∧
      errorLogs (demoBackup.Backup false demoWorld).1.trace =
        [{ level := Level.Error, msg := "Backup failed".toList,
           attrs := [("system".toList, "backup".toList),
             ("err".toList, "failed to execute rclone: exit status 1, boom".toList)] }] :=
  Backup_besteffort demoBackup { attrs := [("system".toList, "backup".toList)] } rfl demoWorld

/-- C6: on a runner that has a logger, `BackupItem` starts exactly one process:
the executable `rclone` with the arguments `sync`, `--links`, the source and
`gdrive:` followed by the destination, and with the one environment entry
`RCLONE_CONFIG=` followed by the configuration path of the runner. -/
theorem BackupItem_invocation (b : Backup) (l : Logger) (hl : b.Logger = some l)
    (item : BackupItem) (w : World) :
    execs (b.BackupItem item w).1.trace =
      execs w.trace ++
        [{ Name := "rclone".toList,
           Args := ["sync".toList, "--links".toList, item.Source,
             "gdrive:".toList ++ item.Destination],
           Env := ["RCLONE_CONFIG=".toList ++ b.confPath] }] := by
  cases h0 : (w.results 0).err with
  | none => rw [BackupItem_ok b l hl item w h0, execs_next_ok, rcloneCommand]
  | some err => rw [BackupItem_fail b l hl item w err h0, execs_next_fail, rcloneCommand]

/-- C6, at the item `/a` to `x/y`: the remote path is `gdrive:x/y` and the
`--links` flag is present. -/
theorem BackupItem_invocation_witness :
    execs (demoBackup.BackupItem
        { Source := "/a".toList, Destination := "x/y".toList } demoWorld).1.trace =
      [{ Name := "rclone".toList,
         Args := ["sync".toList, "--links".toList, "/a".toList, "gdrive:x/y".toList],
         Env := ["RCLONE_CONFIG=/tmp/rclone.conf".toList] }] :=
  BackupItem_invocation demoBackup { attrs := [("system".toList, "backup".toList)] } rfl
    { Source := "/a".toList, Destination := "x/y".toList } demoWorld

/-! ## Lemmas on `strings.ReplaceAll` for a marker that starts with `#` -/

theorem Index_marker_none (body : GoString) :
    ∀ {s : GoString}, '#' ∉ s → Index s ('#' :: body) = none
  | [], _ => by simp [Index]
  | x :: t, h => by
    have hx : '#' ≠ x := fun e => h (List.mem_cons.2 (Or.inl e))
    have ht : '#' ∉ t := fun m => h (List.mem_cons_of_mem _ m)
    simp [Index, hx, Index_marker_none body ht]

theorem Index_marker_append (body q : GoString) :
    ∀ (p : GoString), '#' ∉ p → Index (p ++ ('#' :: body) ++ q) ('#' :: body) = some p.length
  | [], _ => by
    have hpre : ('#' :: body).isPrefixOf ('#' :: body ++ q) = true := by
      rw [List.isPrefixOf_iff_prefix]
      exact List.prefix_append _ _
    simp only [List.nil_append, List.cons_append] at hpre ⊢
    simp [Index, hpre]
  | x :: t, h => by
    have hx : '#' ≠ x := fun e => h (List.mem_cons.2 (Or.inl e))
    have ht : '#' ∉ t := fun m => h (List.mem_cons_of_mem _ m)
    have ih := Index_marker_append body q t ht
    simp only [List.cons_append, List.append_assoc] at ih ⊢
    simp [Index, hx, ih]

/-- One occurrence of the marker, none after it: `ReplaceAll` replaces it. -/
theorem ReplaceAll_once (p q old new : GoString) (hold : old ≠ [])
    (h1 : Index (p ++ old ++ q) old = some p.length) (h2 : Index q old = none) :
    ReplaceAll (p ++ old ++ q) old new = p ++ new ++ q := by
  by_cases hon : old = new
  · subst hon
    simp [ReplaceAll, Replace]
  · have hdrop : (p ++ old ++ q).drop (p.length + old.length) = q := by
      rw [← List.length_append, List.drop_left]
    have htake : (p ++ old ++ q).take p.length = p := by
      rw [List.append_assoc, List.take_left]
    have hq : ∀ fuel, countLoop old fuel q = 0 := by
      intro fuel
      cases fuel <;> simp [countLoop, h2]
    have hcount : Count (p ++ old ++ q) old = 1 := by
      simp only [Count, hold, if_false, countLoop, h1, hdrop, hq]
    simp only [ReplaceAll, Replace, hon, hcount]
    simp only [replaceLoop, hold, h1, hdrop, htake, if_false, Option.getD_some]
    simp

/-! ## The claim on `getConfig` -/

/-- The configuration text when neither the client id nor the client secret
contains the character `#`: the template with the three values in place. -/
theorem getConfig_plain_values (clientID clientSecret token : GoString)
    (hid : '#' ∉ clientID) (hsec : '#' ∉ clientSecret) :
    getConfig (.ok { ClientID := clientID, ClientSecret := clientSecret }) (.ok token) =
      ("\n[gdrive]\ntype = drive\nclient_id = ".toList ++ clientID ++
        "\nclient_secret = ".toList ++ clientSecret ++
        "\nscope = drive\ntoken = ".toList ++ token ++ "\nteam_drive = \n".toList, none) := by
  have e1 : baseTemplate = "\n[gdrive]\ntype = drive\nclient_id = ".toList ++
      "#client_id#".toList ++
      "\nclient_secret = #client_secret#\nscope = drive\ntoken = #token#\nteam_drive = \n".toList := by
    decide
  have s1 : ReplaceAll baseTemplate "#client_id#".toList clientID =
      "\n[gdrive]\ntype = drive\nclient_id = ".toList ++ clientID ++
      "\nclient_secret = #client_secret#\nscope = drive\ntoken = #token#\nteam_drive = \n".toList := by
    rw [e1]
    exact ReplaceAll_once _ _ _ _ (by decide) (by decide) (by decide)
  have e2 : "\n[gdrive]\ntype = drive\nclient_id = ".toList ++ clientID ++
      "\nclient_secret = #client_secret#\nscope = drive\ntoken = #token#\nteam_drive = \n".toList =
      ("\n[gdrive]\ntype = drive\nclient_id = ".toList ++ clientID ++
        "\nclient_secret = ".toList) ++ ('#' :: "client_secret#".toList) ++
      "\nscope = drive\ntoken = #token#\nteam_drive = \n".toList := by
    simp only [List.append_assoc]
    rfl
  have h2 : '#' ∉ "\n[gdrive]\ntype = drive\nclient_id = ".toList ++ clientID ++
      "\nclient_secret = ".toList := by
    simp only [List.mem_append, not_or]
    exact ⟨⟨by decide, hid⟩, by decide⟩
  have s2 : ReplaceAll ("\n[gdrive]\ntype = drive\nclient_id = ".toList ++ clientID ++
      "\nclient_secret = #client_secret#\nscope = drive\ntoken = #token#\nteam_drive = \n".toList)
      "#client_secret#".toList clientSecret =
      "\n[gdrive]\ntype = drive\nclient_id = ".toList ++ clientID ++
        "\nclient_secret = ".toList ++ clientSecret ++
        "\nscope = drive\ntoken = #token#\nteam_drive = \n".toList := by
    rw [e2]
    exact ReplaceAll_once _ _ ('#' :: "client_secret#".toList) _ (by decide)
      (Index_marker_append _ _ _ h2) (by decide)
  have e3 : "\n[gdrive]\ntype = drive\nclient_id = ".toList ++ clientID ++
        "\nclient_secret = ".toList ++ clientSecret ++
        "\nscope = drive\ntoken = #token#\nteam_drive = \n".toList =
      ("\n[gdrive]\ntype = drive\nclient_id = ".toList ++ clientID ++
        "\nclient_secret = ".toList ++ clientSecret ++ "\nscope = drive\ntoken = ".toList) ++
        ('#' :: "token#".toList) ++ "\nteam_drive = \n".toList := by
    simp only [List.append_assoc]
    rfl
  have h3 : '#' ∉ "\n[gdrive]\ntype = drive\nclient_id = ".toList ++ clientID ++
        "\nclient_secret = ".toList ++ clientSecret ++ "\nscope = drive\ntoken = ".toList := by
    simp only [List.mem_append, not_or]
    exact ⟨⟨⟨⟨by decide, hid⟩, by decide⟩, hsec⟩, by decide⟩
  have s3 : ReplaceAll ("\n[gdrive]\ntype = drive\nclient_id = ".toList ++ clientID ++
        "\nclient_secret = ".toList ++ clientSecret ++
        "\nscope = drive\ntoken = #token#\nteam_drive = \n".toList) "#token#".toList token =
      "\n[gdrive]\ntype = drive\nclient_id = ".toList ++ clientID ++
        "\nclient_secret = ".toList ++ clientSecret ++
        "\nscope = drive\ntoken = ".toList ++ token ++ "\nteam_drive = \n".toList := by
    rw [e3]
    exact ReplaceAll_once _ _ ('#' :: "token#".toList) _ (by decide)
      (Index_marker_append _ _ _ h3) (by decide)
  simp only [getConfig, s1, s2, s3]

/-- The plain-values case at the values `ID`, `SEC`, `TOK`. -/
theorem getConfig_plain_values_witness :
    getConfig (.ok { ClientID := "ID".toList, ClientSecret := "SEC".toList })
        (.ok "TOK".toList) =
      (("\n[gdrive]\ntype = drive\nclient_id = ID\nclient_secret = SEC\n" ++
        "scope = drive\ntoken = TOK\nteam_drive = \n").toList, none) :=
  getConfig_plain_values "ID".toList "SEC".toList "TOK".toList (by decide) (by decide)

/-- C9, at the client id `#token#`: the client id does not reach the output
unmodified; the third `ReplaceAll` replaces it by the token. -/
theorem getConfig_marker_in_client_id :
    getConfig (.ok { ClientID := "#token#".toList, ClientSecret := "SEC".toList })
        (.ok "TOK".toList) =
      (("\n[gdrive]\ntype = drive\nclient_id = TOK\nclient_secret = SEC\n" ++
        "scope = drive\ntoken = TOK\nteam_drive = \n").toList, none) ∧
    (getConfig (.ok { ClientID := "#token#".toList, ClientSecret := "SEC".toList })
        (.ok "TOK".toList)).1 ≠
      "\n[gdrive]\ntype = drive\nclient_id = ".toList ++ "#token#".toList ++
        "\nclient_secret = ".toList ++ "SEC".toList ++
        "\nscope = drive\ntoken = ".toList ++ "TOK".toList ++ "\nteam_drive = \n".toList := by
  decide

end backup
